import Mathlib

/-!
Verification of the gdsCAD hierarchical layout model and GDSII codec,
a shallow embedding of src/gdsCAD/core.py.

Modelling conventions:
 - machine floats are modelled by exact rational arithmetic (ℚ);
 - byte strings are lists of naturals below 256;
 - struct.pack range failures (struct.error) are modelled with Except;
 - Python object identity is modelled by an explicit id field.
-/

namespace GdsCAD

/-- A 2D point in user units. -/
abbrev Point : Type := ℚ × ℚ

/-- struct.pack of one big-endian unsigned 16-bit value, two bytes.
Out of range values raise struct.error. -/
def packH (n : ℤ) : Except String (List ℕ) :=
  if 0 ≤ n ∧ n ≤ 65535 then .ok [n.toNat / 256, n.toNat % 256]
  else .error "struct.error: H format requires 0 <= number <= 65535"

/-- struct.pack of one big-endian unsigned 32-bit value, four bytes. -/
def packL (n : ℤ) : Except String (List ℕ) :=
  if 0 ≤ n ∧ n ≤ 4294967295 then
    .ok [n.toNat / 16777216 % 256, n.toNat / 65536 % 256, n.toNat / 256 % 256, n.toNat % 256]
  else .error "struct.error: L format requires 0 <= number <= 4294967295"

/-- The mantissa candidate in _eight_byte_real, the source line
mantissa = long(value * 16 ** (14 - exponent)).  The value is positive at
this point of the source, so long truncation is the floor. -/
def ebrMant (a : ℚ) (e : ℤ) : ℤ := ⌊a * (16 : ℚ) ^ (14 - e)⌋

/-- The while loop of _eight_byte_real, with explicit fuel: while the
mantissa overflows 56 bits, increment the exponent and recompute.  With
exact arithmetic a single step always suffices (proved below), so any
fuel of at least two returns the exit value of the loop. -/
def ebrLoop : ℕ → ℚ → ℤ → ℤ
  | 0, _, e => e
  | n + 1, a, e => if 72057594037927936 ≤ ebrMant a e then ebrLoop n a (e + 1) else e

/-- The function _eight_byte_real from core.py: convert a number into the GDSII
8 byte real format (sign bit, excess-64 base-16 exponent, 56 bit
mantissa), packed with struct.pack as one u16 and one u16 and one u32. -/
def eight_byte_real (value : ℚ) : Except String (List ℕ) :=
  if value = 0 then .ok [0, 0, 0, 0, 0, 0, 0, 0]
  else
    let byte1sign : ℤ := if value < 0 then 128 else 0
    let a : ℚ := |value|
    let exponent : ℤ := ebrLoop 64 a (Int.log 16 a)
    let mantissa : ℕ := (ebrMant a exponent).toNat
    let byte1 : ℤ := byte1sign + exponent + 64
    let byte2 : ℕ := mantissa / 281474976710656
    let short3 : ℕ := mantissa % 281474976710656 / 4294967296
    let long4 : ℕ := mantissa % 4294967296
    match packH (byte1 * 256 + (byte2 : ℤ)) with
    | .error e => .error e
    | .ok p1 =>
      match packH (short3 : ℤ) with
      | .error e => .error e
      | .ok p2 =>
        match packL (long4 : ℤ) with
        | .error e => .error e
        | .ok p3 => .ok (p1 ++ p2 ++ p3)

/-- The function _eight_byte_real_to_float from core.py: convert a GDSII 8 byte real
into a number.  struct.unpack of the format string HHL demands exactly
eight bytes and raises otherwise; the function is only ever applied to
eight byte strings, and other lengths are mapped to 0 here. -/
def eight_byte_real_to_float (value : List ℕ) : ℚ :=
  match value with
  | [b0, b1, b2, b3, b4, b5, b6, b7] =>
    let short1 : ℕ := b0 * 256 + b1
    let short2 : ℕ := b2 * 256 + b3
    let long3 : ℕ := ((b4 * 256 + b5) * 256 + b6) * 256 + b7
    let exponent : ℕ := short1 / 256 % 128
    let mantissa : ℚ := (((short1 % 256 * 65536 + short2) * 4294967296 + long3 : ℕ) : ℚ) /
      72057594037927936
    (if short1 / 32768 % 2 = 1 then -1 else 1) * mantissa * (16 : ℚ) ^ ((exponent : ℤ) - 64)
  | _ => 0

lemma ebrLoop_succ (n : ℕ) (a : ℚ) (e : ℤ) :
    ebrLoop (n + 1) a e =
      if 72057594037927936 ≤ ebrMant a e then ebrLoop n a (e + 1) else e := rfl

lemma sixteen_zpow_add (i j : ℤ) : (16 : ℚ) ^ i * (16 : ℚ) ^ j = (16 : ℚ) ^ (i + j) :=
  (zpow_add₀ (by norm_num : (16 : ℚ) ≠ 0) i j).symm

lemma log16_le_self (a : ℚ) (ha : 0 < a) : (16 : ℚ) ^ (Int.log 16 a) ≤ a := by
  have h := Int.zpow_log_le_self (b := 16) (by norm_num) ha
  push_cast at h
  exact h

lemma self_lt_log16_succ (a : ℚ) (_ha : 0 < a) : a < (16 : ℚ) ^ (Int.log 16 a + 1) := by
  have h := Int.lt_zpow_succ_log_self (b := 16) (by norm_num) a
  push_cast at h
  exact h

lemma ebrMant_log_ge (a : ℚ) (ha : 0 < a) :
    72057594037927936 ≤ ebrMant a (Int.log 16 a) := by
  rw [ebrMant, Int.le_floor]
  have h2 : (0 : ℚ) < (16 : ℚ) ^ (14 - Int.log 16 a) := zpow_pos (by norm_num) _
  calc ((72057594037927936 : ℤ) : ℚ)
      = (16 : ℚ) ^ (Int.log 16 a) * (16 : ℚ) ^ (14 - Int.log 16 a) := by
        rw [sixteen_zpow_add]
        have he : Int.log 16 a + (14 - Int.log 16 a) = 14 := by omega
        rw [he]; norm_num
    _ ≤ a * (16 : ℚ) ^ (14 - Int.log 16 a) :=
        mul_le_mul_of_nonneg_right (log16_le_self a ha) (le_of_lt h2)

lemma ebrMant_succ_lt (a : ℚ) (ha : 0 < a) :
    ebrMant a (Int.log 16 a + 1) < 72057594037927936 := by
  rw [ebrMant, Int.floor_lt]
  have h2 : (0 : ℚ) < (16 : ℚ) ^ (14 - (Int.log 16 a + 1)) := zpow_pos (by norm_num) _
  calc a * (16 : ℚ) ^ (14 - (Int.log 16 a + 1))
      < (16 : ℚ) ^ (Int.log 16 a + 1) * (16 : ℚ) ^ (14 - (Int.log 16 a + 1)) :=
        mul_lt_mul_of_pos_right (self_lt_log16_succ a ha) h2
    _ = ((72057594037927936 : ℤ) : ℚ) := by
        rw [sixteen_zpow_add]
        have he : Int.log 16 a + 1 + (14 - (Int.log 16 a + 1)) = 14 := by omega
        rw [he]; norm_num

lemma ebrMant_succ_ge (a : ℚ) (ha : 0 < a) :
    4503599627370496 ≤ ebrMant a (Int.log 16 a + 1) := by
  rw [ebrMant, Int.le_floor]
  have h2 : (0 : ℚ) < (16 : ℚ) ^ (14 - (Int.log 16 a + 1)) := zpow_pos (by norm_num) _
  calc ((4503599627370496 : ℤ) : ℚ)
      = (16 : ℚ) ^ (Int.log 16 a) * (16 : ℚ) ^ (14 - (Int.log 16 a + 1)) := by
        rw [sixteen_zpow_add]
        have he : Int.log 16 a + (14 - (Int.log 16 a + 1)) = 13 := by omega
        rw [he]; norm_num
    _ ≤ a * (16 : ℚ) ^ (14 - (Int.log 16 a + 1)) :=
        mul_le_mul_of_nonneg_right (log16_le_self a ha) (le_of_lt h2)

/-- With exact arithmetic the while loop of _eight_byte_real runs for
exactly one iteration: the initial exponent floor(log16 a) always
overflows the 56 bit mantissa, and one increment always fixes it. -/
lemma ebrLoop64_eval (a : ℚ) (ha : 0 < a) :
    ebrLoop 64 a (Int.log 16 a) = Int.log 16 a + 1 := by
  have h64 : (64 : ℕ) = 63 + 1 := rfl
  rw [h64, ebrLoop_succ, if_pos (ebrMant_log_ge a ha)]
  have h63 : (63 : ℕ) = 62 + 1 := rfl
  rw [h63, ebrLoop_succ, if_neg (not_le.mpr (ebrMant_succ_lt a ha))]

/-- Decoding the byte string produced for sign byte part s, biased
exponent E and 56 bit mantissa M recovers s, E and M exactly. -/
lemma ebr_decode_bytes (s E M : ℕ) (hs : s = 0 ∨ s = 128) (hE : E ≤ 127)
    (hM : M < 72057594037927936) :
    eight_byte_real_to_float [s + E, M / 281474976710656,
      M % 281474976710656 / 4294967296 / 256, M % 281474976710656 / 4294967296 % 256,
      M % 4294967296 / 16777216 % 256, M % 4294967296 / 65536 % 256,
      M % 4294967296 / 256 % 256, M % 4294967296 % 256] =
    (if s = 128 then -1 else 1) * ((M : ℚ) / 72057594037927936) * (16 : ℚ) ^ ((E : ℤ) - 64) := by
  rw [eight_byte_real_to_float]
  have hhi : ((s + E) * 256 + M / 281474976710656) / 256 % 128 = E := by omega
  have hm : ((s + E) * 256 + M / 281474976710656) % 256 * 65536 +
      (M % 281474976710656 / 4294967296 / 256 * 256 +
        M % 281474976710656 / 4294967296 % 256) = M / 4294967296 := by omega
  have hlo : ((M % 4294967296 / 16777216 % 256 * 256 + M % 4294967296 / 65536 % 256) * 256 +
      M % 4294967296 / 256 % 256) * 256 + M % 4294967296 % 256 = M % 4294967296 := by omega
  have hrec : M / 4294967296 * 4294967296 + M % 4294967296 = M := by omega
  have hsgn : ((s + E) * 256 + M / 281474976710656) / 32768 % 2 = (if s = 128 then 1 else 0) := by
    rcases hs with rfl | rfl <;> simp <;> omega
  simp only [hhi, hm, hlo, hrec, hsgn]
  rcases hs with rfl | rfl <;> norm_num

/-- The reconstructed value M / 2^56 * 16^(log16 a + 1) undershoots a by
less than one part in 2^52. -/
lemma ebr_approx (a : ℚ) (ha : 0 < a) :
    0 ≤ a - ((ebrMant a (Int.log 16 a + 1)).toNat : ℚ) / 72057594037927936 *
        (16 : ℚ) ^ (Int.log 16 a + 1) ∧
    a - ((ebrMant a (Int.log 16 a + 1)).toNat : ℚ) / 72057594037927936 *
        (16 : ℚ) ^ (Int.log 16 a + 1) ≤ a / 4503599627370496 := by
  set L := Int.log 16 a with hL
  have hm0 : 0 ≤ ebrMant a (L + 1) := le_trans (by norm_num) (ebrMant_succ_ge a ha)
  have hcast : ((ebrMant a (L + 1)).toNat : ℚ) = ((ebrMant a (L + 1) : ℤ) : ℚ) := by
    exact_mod_cast congrArg (fun z : ℤ => (z : ℚ)) (Int.toNat_of_nonneg hm0)
  have hP : (0 : ℚ) < (16 : ℚ) ^ (14 - (L + 1)) := zpow_pos (by norm_num) _
  have hfl : ((ebrMant a (L + 1) : ℤ) : ℚ) ≤ a * (16 : ℚ) ^ (14 - (L + 1)) := by
    rw [ebrMant]; exact Int.floor_le _
  have hfu : a * (16 : ℚ) ^ (14 - (L + 1)) < ((ebrMant a (L + 1) : ℤ) : ℚ) + 1 := by
    rw [ebrMant]; exact Int.lt_floor_add_one _
  have hPE : (16 : ℚ) ^ (14 - (L + 1)) * (16 : ℚ) ^ (L + 1) = 72057594037927936 := by
    rw [sixteen_zpow_add]
    have he : 14 - (L + 1) + (L + 1) = 14 := by omega
    rw [he]; norm_num
  have hEpos : (0 : ℚ) < (16 : ℚ) ^ (L + 1) := zpow_pos (by norm_num) _
  constructor
  · have h := mul_le_mul_of_nonneg_right hfl (le_of_lt hEpos)
    rw [mul_assoc, hPE] at h
    rw [hcast, div_mul_eq_mul_div, sub_nonneg, div_le_iff₀ (by norm_num)]
    linarith
  · have h := mul_le_mul_of_nonneg_right (le_of_lt hfu) (le_of_lt hEpos)
    rw [add_mul, mul_assoc, hPE, one_mul] at h
    have hbig : (16 : ℚ) ^ (L + 1) ≤ a * 16 := by
      have h1 : (16 : ℚ) ^ L ≤ a := log16_le_self a ha
      have h2 : (16 : ℚ) ^ (L + 1) = (16 : ℚ) ^ L * 16 := by
        rw [← sixteen_zpow_add]; norm_num
      rw [h2]
      exact mul_le_mul_of_nonneg_right h1 (by norm_num)
    rw [hcast, div_mul_eq_mul_div]
    linarith

/-- The 56 bit mantissa that _eight_byte_real settles on for a nonzero
input. -/
def ebrM (v : ℚ) : ℕ := (ebrMant |v| (Int.log 16 |v| + 1)).toNat

lemma ebrM_lt (v : ℚ) (hv : v ≠ 0) : ebrM v < 72057594037927936 := by
  have ha : 0 < |v| := abs_pos.mpr hv
  have h := ebrMant_succ_lt |v| ha
  rw [ebrM]; omega

/-- Evaluation of _eight_byte_real on a nonzero value whose exponent fits
the format: the struct packs succeed and produce the eight bytes of
sign, excess-64 exponent and mantissa. -/
lemma eight_byte_real_eval (v : ℚ) (hv : v ≠ 0)
    (h0 : 0 ≤ Int.log 16 |v| + 65) (h1 : Int.log 16 |v| + 65 ≤ 127) :
    eight_byte_real v = .ok [(if v < 0 then 128 else 0) + (Int.log 16 |v| + 65).toNat,
      ebrM v / 281474976710656,
      ebrM v % 281474976710656 / 4294967296 / 256,
      ebrM v % 281474976710656 / 4294967296 % 256,
      ebrM v % 4294967296 / 16777216 % 256,
      ebrM v % 4294967296 / 65536 % 256,
      ebrM v % 4294967296 / 256 % 256,
      ebrM v % 4294967296 % 256] := by
  have ha : 0 < |v| := abs_pos.mpr hv
  have hMlt : ebrM v < 72057594037927936 := ebrM_lt v hv
  have hMdef : (ebrMant |v| (Int.log 16 |v| + 1)).toNat = ebrM v := rfl
  rw [eight_byte_real, if_neg hv]
  simp only [ebrLoop64_eval |v| ha, hMdef]
  by_cases hneg : v < 0
  · simp only [if_pos hneg]
    rw [packH, if_pos ⟨by omega, by omega⟩, packH, if_pos ⟨by omega, by omega⟩,
      packL, if_pos ⟨by omega, by omega⟩]
    simp only [List.cons_append, List.nil_append, Except.ok.injEq, List.cons.injEq, and_true]
    omega
  · simp only [if_neg hneg]
    rw [packH, if_pos ⟨by omega, by omega⟩, packH, if_pos ⟨by omega, by omega⟩,
      packL, if_pos ⟨by omega, by omega⟩]
    simp only [List.cons_append, List.nil_append, Except.ok.injEq, List.cons.injEq, and_true]
    omega

/-- C1: for every value whose magnitude lies in the packed-real exponent
range, decoding the encoding recovers the value to 56-bit-mantissa
precision, and 0.0 encodes to eight zero bytes. -/
theorem C1_eight_byte_real_roundtrip (v : ℚ) (hv : v ≠ 0)
    (h0 : 0 ≤ Int.log 16 |v| + 65) (h1 : Int.log 16 |v| + 65 ≤ 127) :
    eight_byte_real 0 = .ok [0, 0, 0, 0, 0, 0, 0, 0] ∧
    ∃ bytes, eight_byte_real v = .ok bytes ∧
      |eight_byte_real_to_float bytes - v| ≤ |v| / 4503599627370496 := by
  refine ⟨rfl, _, eight_byte_real_eval v hv h0 h1, ?_⟩
  rw [ebr_decode_bytes (if v < 0 then 128 else 0) ((Int.log 16 |v| + 65).toNat) (ebrM v)
    (by split; exacts [Or.inr rfl, Or.inl rfl]) (by omega) (ebrM_lt v hv)]
  have hE : ((Int.log 16 |v| + 65).toNat : ℤ) - 64 = Int.log 16 |v| + 1 := by omega
  rw [hE]
  have happrox := ebr_approx |v| (abs_pos.mpr hv)
  have hMdef : (ebrMant |v| (Int.log 16 |v| + 1)).toNat = ebrM v := rfl
  rw [hMdef] at happrox
  by_cases hneg : v < 0
  · have hav : |v| = -v := abs_of_neg hneg
    rw [if_pos (by simp [hneg])]
    have hshape : (-1 : ℚ) * ((ebrM v : ℚ) / 72057594037927936) *
        (16 : ℚ) ^ (Int.log 16 |v| + 1) - v =
        |v| - (ebrM v : ℚ) / 72057594037927936 * (16 : ℚ) ^ (Int.log 16 |v| + 1) := by
      rw [hav]; ring
    rw [hshape, abs_of_nonneg happrox.1]
    exact happrox.2
  · have hav : |v| = v := abs_of_nonneg (not_lt.mp hneg)
    rw [if_neg (by simp [hneg])]
    have hshape : (1 : ℚ) * ((ebrM v : ℚ) / 72057594037927936) *
        (16 : ℚ) ^ (Int.log 16 |v| + 1) - v =
        -(|v| - (ebrM v : ℚ) / 72057594037927936 * (16 : ℚ) ^ (Int.log 16 |v| + 1)) := by
      rw [hav]; ring
    rw [hshape, abs_neg, abs_of_nonneg happrox.1]
    exact happrox.2

/-- Witness for C1 at the concrete input 1.0. -/
theorem C1_eight_byte_real_roundtrip_witness :
    ((1 : ℚ) ≠ 0 ∧ 0 ≤ Int.log 16 |(1 : ℚ)| + 65 ∧ Int.log 16 |(1 : ℚ)| + 65 ≤ 127) ∧
    (eight_byte_real 0 = .ok [0, 0, 0, 0, 0, 0, 0, 0] ∧
      ∃ bytes, eight_byte_real 1 = .ok bytes ∧
        |eight_byte_real_to_float bytes - 1| ≤ |(1 : ℚ)| / 4503599627370496) :=
  ⟨⟨by norm_num, by norm_num [Int.log_one_right], by norm_num [Int.log_one_right]⟩,
    C1_eight_byte_real_roundtrip 1 (by norm_num) (by norm_num [Int.log_one_right])
      (by norm_num [Int.log_one_right])⟩

/-! ## Geometric primitives: ElementBase transforms (core.py 187-310)

The transforms use numpy trigonometry.  The model abstracts the cosine
and sine of an angle in degrees behind a structure carrying the two
facts about them the source relies on at angle zero. -/

/-- Abstract degree-argument trigonometric functions, standing for
np.cos(x * np.pi / 180) and np.sin(x * np.pi / 180). -/
structure Trig where
  cosDeg : ℚ → ℚ
  sinDeg : ℚ → ℚ
  cosDeg_zero : cosDeg 0 = 1
  sinDeg_zero : sinDeg 0 = 0

/-- A trivial instance of the abstract trigonometry, for witnesses. -/
def trigZero : Trig where
  cosDeg := fun t => if t = 0 then 1 else 0
  sinDeg := fun _ => 0
  cosDeg_zero := rfl
  sinDeg_zero := rfl

namespace ElementBase

/-- ElementBase.translate: pointwise addition of the displacement. -/
def translate (pts : List Point) (d : Point) : List Point :=
  pts.map fun p => (p.1 + d.1, p.2 + d.2)

/-- ElementBase.scale with a (possibly non-uniform) factor k about an
origin: (points - origin) * k + origin.  A scalar factor from the
source corresponds to k.1 = k.2. -/
def scale (pts : List Point) (k : Point) (origin : Point) : List Point :=
  pts.map fun p => ((p.1 - origin.1) * k.1 + origin.1, (p.2 - origin.2) * k.2 + origin.2)

/-- ElementBase.rotate by an angle in degrees about a center:
the rotation matrix applied to (points - center), plus center. -/
def rotate (T : Trig) (pts : List Point) (angle : ℚ) (center : Point) : List Point :=
  pts.map fun p =>
    (T.cosDeg angle * (p.1 - center.1) - T.sinDeg angle * (p.2 - center.2) + center.1,
     T.sinDeg angle * (p.1 - center.1) + T.cosDeg angle * (p.2 - center.2) + center.2)

lemma rotate_zero (T : Trig) (pts : List Point) (center : Point) :
    rotate T pts 0 center = pts := by
  rw [rotate]
  have h : ∀ p : Point,
      (T.cosDeg 0 * (p.1 - center.1) - T.sinDeg 0 * (p.2 - center.2) + center.1,
       T.sinDeg 0 * (p.1 - center.1) + T.cosDeg 0 * (p.2 - center.2) + center.2) = p := by
    intro p
    rw [T.cosDeg_zero, T.sinDeg_zero]
    simp
  simp only [h, List.map_id_fun', id]

end ElementBase

/-! ## Rounding and byte packing shared by the to_gds encoders -/

/-- Round-half-to-even, the rounding of np.round and of Python 3 round,
used for all coordinate and width scaling before emission. -/
def roundHalfEven (x : ℚ) : ℤ :=
  if x - ⌊x⌋ < 1 / 2 then ⌊x⌋
  else if 1 / 2 < x - ⌊x⌋ then ⌊x⌋ + 1
  else if ⌊x⌋ % 2 = 0 then ⌊x⌋ else ⌊x⌋ + 1

/-- struct.pack of a sequence of big-endian unsigned 16-bit values,
failing on the first out-of-range value like struct.error does. -/
def packHs : List ℤ → Except String (List ℕ)
  | [] => .ok []
  | n :: rest =>
    match packH n with
    | .error e => .error e
    | .ok b =>
      match packHs rest with
      | .error e => .error e
      | .ok bs => .ok (b ++ bs)

/-- The four big-endian bytes of one value cast to a 32-bit integer the
way numpy casts to dtype i4: reduced modulo 2^32, no error. -/
def int32Bytes (n : ℤ) : List ℕ :=
  let u : ℕ := (n % 4294967296).toNat
  [u / 16777216 % 256, u / 65536 % 256, u / 256 % 256, u % 256]

/-- The big-endian byte string of an i4 coordinate array, as produced by
np.array(..., dtype i4).tostring(). -/
def coordBytes (coords : List (ℤ × ℤ)) : List ℕ :=
  coords.flatMap fun c => int32Bytes c.1 ++ int32Bytes c.2

/-- Scale points by the multiplier and round to integers, the line
gds_coordinates = np.array(np.round(points * multiplier), dtype i4). -/
def gdsCoordinates (pts : List Point) (multiplier : ℚ) : List (ℤ × ℤ) :=
  pts.map fun p => (roundHalfEven (p.1 * multiplier), roundHalfEven (p.2 * multiplier))

/-! ## Boundary (core.py 360-453) -/

/-- The closing step of Boundary.__init__: if the first point differs
from the last in any coordinate, append a copy of the first point.  On
an empty sequence the source raises IndexError before this test; the
empty case never reaches this function with a defined meaning. -/
def boundaryClose (points : List Point) : List Point :=
  if points.head? ≠ points.getLast? then points ++ points.head?.toList else points

/-- A Boundary: closed point sequence, layer and datatype. -/
structure BoundaryT where
  points : List Point
  layer : ℕ
  datatype : ℕ

/-- Boundary.__init__ for a nonempty caller point sequence: close the
points, then warn (only when verbose) for counts above 199 and above
8191.  The laydat/default-layer plumbing is applied by the caller and
the resolved layer and datatype are passed in directly. -/
def Boundary.init (points : List Point) (layer datatype : ℕ) (verbose : Bool) :
    Except String (BoundaryT × List String) :=
  match points with
  | [] => .error "IndexError: index 0 is out of bounds"
  | p :: rest =>
    let closed := boundaryClose (p :: rest)
    let warns :=
      (if verbose ∧ 199 < closed.length ∧ closed.length ≤ 8191 then
        ["[GDSPY] A polygon with more than 199 points was created"] else []) ++
      (if verbose ∧ 8191 < closed.length then
        ["[GDSPY] A polygon with more than 8191 points was created"] else [])
    .ok ({ points := closed, layer := layer, datatype := datatype }, warns)

/-- The XY-record export loop of Boundary.to_gds: emit the coordinates
in chunks of at most 8191 points, each preceded by a record header of
size 4 + 8 * chunk. -/
def xyLoop : List (ℤ × ℤ) → Except String (List ℕ)
  | [] => .ok []
  | c :: rest =>
    match packH (4 + 8 * (min 8191 (c :: rest).length : ℕ)) with
    | .error e => .error e
    | .ok hdr =>
      match packH 0x1003 with
      | .error e => .error e
      | .ok tag =>
        match xyLoop ((c :: rest).drop 8191) with
        | .error e => .error e
        | .ok tail => .ok (hdr ++ tag ++ coordBytes ((c :: rest).take 8191) ++ tail)
termination_by l => l.length
decreasing_by simp [List.length_drop]; omega

/-- Boundary.to_gds: BOUNDARY, LAYER, DATATYPE records, the chunked XY
records, then ENDEL. -/
def Boundary.to_gds (b : BoundaryT) (multiplier : ℚ) : Except String (List ℕ) :=
  let gds_coordinates := gdsCoordinates b.points multiplier
  match packHs [4, 0x0800, 6, 0x0D02, (b.layer : ℤ), 6, 0x0E02, (b.datatype : ℤ)] with
  | .error e => .error e
  | .ok hdr =>
    match xyLoop gds_coordinates with
    | .error e => .error e
    | .ok xy =>
      match packHs [4, 0x1100] with
      | .error e => .error e
      | .ok endel => .ok (hdr ++ xy ++ endel)

/-! ## Path (core.py 521-587) -/

/-- A Path: open point sequence, width, endcap style, layer, datatype. -/
structure PathT where
  points : List Point
  width : ℚ
  layer : ℕ
  datatype : ℕ
  pathtype : ℕ

/-- Path.__init__: store the points unchanged, warn (only when verbose)
above 199 points, and raise ValueError above 8191 points. -/
def Path.init (points : List Point) (width : ℚ) (layer datatype pathtype : ℕ)
    (verbose : Bool) : Except String (PathT × List String) :=
  let warns :=
    if verbose ∧ 199 < points.length then
      ["[GDSPY] A Path with more than 199 points was created"] else []
  if 8191 < points.length then .error "Paths with more than 8191 not supported by GDSII"
  else .ok ({ points := points, width := width, layer := layer, datatype := datatype,
              pathtype := pathtype }, warns)

/-- Path.to_gds: PATH, LAYER, DATATYPE, PATHTYPE, WIDTH records, a
single XY record whose u16 size field is 4 + 8 * point count, then
ENDEL.  There is no chunking: a size field beyond 65535 is a
struct.error. -/
def Path.to_gds (p : PathT) (multiplier : ℚ) : Except String (List ℕ) :=
  let gds_coordinates := gdsCoordinates p.points multiplier
  match packHs [4, 0x0900, 6, 0x0D02, (p.layer : ℤ), 6, 0x0E02, (p.datatype : ℤ),
      6, 0x2102, (p.pathtype : ℤ), 8] with
  | .error e => .error e
  | .ok hdr =>
    match packH 0x0F03 with
    | .error e => .error e
    | .ok wtag =>
      match packL (roundHalfEven (p.width * multiplier)) with
      | .error e => .error e
      | .ok wval =>
        match packH (4 + 8 * (p.points.length : ℤ)) with
        | .error e => .error e
        | .ok sz =>
          match packH 0x1003 with
          | .error e => .error e
          | .ok xytag =>
            match packHs [4, 0x1100] with
            | .error e => .error e
            | .ok endel =>
              .ok (hdr ++ wtag ++ wval ++ sz ++ xytag ++ coordBytes gds_coordinates ++ endel)

/-! ## Cells and references (core.py 1379-1962)

A Cell owns drawing objects (modelled by their point sequences) and
references; a reference holds a non-owning pointer to its target cell,
modelled structurally, with Python object identity modelled by an id
field.  CellReference and CellArray share the naming and dependency
logic; RefT models a CellReference. -/

mutual
inductive CellT : Type where
  | mk (id : ℕ) (name : String) (objects : List (List Point)) (refs : List RefT)
inductive RefT : Type where
  | mk (target : CellT) (origin : Point) (rotation : Option ℚ)
      (magnification : Option ℚ) (x_reflection : Bool)
end

def CellT.id : CellT → ℕ
  | .mk i _ _ _ => i

def CellT.name : CellT → String
  | .mk _ n _ _ => n

def CellT.objects : CellT → List (List Point)
  | .mk _ _ o _ => o

def CellT.refs : CellT → List RefT
  | .mk _ _ _ r => r

def RefT.target : RefT → CellT
  | .mk t _ _ _ _ => t

/-- Cell.__len__ through the elements property: number of objects plus
number of references. -/
def CellT.len : CellT → ℕ
  | .mk _ _ o r => o.length + r.length

mutual
/-- Cell.get_dependencies (include_elements false): concatenation of
each reference's dependency list, duplicates preserved. -/
def CellT.get_dependencies : CellT → List CellT
  | .mk _ _ _ refs => refsDeps refs

def refsDeps : List RefT → List CellT
  | [] => []
  | r :: rest => RefT.get_dependencies r ++ refsDeps rest

/-- ReferenceBase.get_dependencies: the target cell followed by the
target's own dependencies. -/
def RefT.get_dependencies : RefT → List CellT
  | .mk t _ _ _ _ => t :: CellT.get_dependencies t
end

/-- Removal of duplicates by Python object identity (the id field),
modelling the set() used by Layout.get_dependencies; the set's
iteration order is arbitrary in the source, first-occurrence order
here.  No claim depends on the order. -/
def dedupeById : List CellT → List CellT
  | [] => []
  | c :: rest => c :: dedupeById (rest.filter fun x => x.id ≠ c.id)
termination_by l => l.length
decreasing_by
  simp
  exact Nat.lt_succ_of_le (List.length_filter_le _ _)

/-- A Layout is a dict from cell name to cell, in insertion order. -/
abbrev LayoutT : Type := List (String × CellT)

def LayoutT.values (L : LayoutT) : List CellT := L.map Prod.snd

/-- Layout.get_dependencies: the set of the layout's own cells joined
with every cell's dependency set. -/
def LayoutT.get_dependencies (L : LayoutT) : List CellT :=
  dedupeById (LayoutT.values L ++ (LayoutT.values L).flatMap CellT.get_dependencies)

/-- Python dict item assignment self[key] = cell: replace in place if
the key exists, else append. -/
def dictSetItem (L : LayoutT) (key : String) (c : CellT) : LayoutT :=
  if (L.map Prod.fst).contains key then
    L.map fun p => if p.1 = key then (key, c) else p
  else L ++ [(key, c)]

/-- Dict lookup by cell name. -/
def LayoutT.lookupName (L : LayoutT) (key : String) : Option CellT :=
  (L.find? fun p => p.1 = key).map Prod.snd

/-- Layout.add: warn (boolean flag) when a cell of the same name is in
the dependency closure, then store the cell under its name
unconditionally. -/
def LayoutT.add (L : LayoutT) (cell : CellT) : LayoutT × Bool :=
  let names := (LayoutT.get_dependencies L).map CellT.name
  (dictSetItem L cell.name cell, names.contains cell.name)

/-! ## Duplicate-name resolution at save time (core.py 1275-1330,
1460-1493, 1828-1857, 2020-2036, 2567-2584) -/

/-- The 64-character table of _compact_id: uppercase, lowercase, digits,
question mark, dollar. -/
def compactChars : List Char :=
  "ABCDEFGHIJKLMNOPQRSTUVWXYZabcdefghijklmnopqrstuvwxyz0123456789?$".toList

/-- Base-64 digits of a positive number, least significant first,
modelling the 6-bit chunking of the binary string in _compact_id. -/
def compactDigits : ℕ → List ℕ
  | 0 => []
  | n + 1 => ((n + 1) % 64) :: compactDigits ((n + 1) / 64)
decreasing_by exact Nat.div_lt_self (Nat.succ_pos n) (by norm_num)

/-- The function _compact_id: the object id written most-significant-digit first in
the 64-character alphabet; id 0 gives the single character A. -/
def compactId (n : ℕ) : String :=
  if n = 0 then "A"
  else String.mk ((compactDigits n).reverse.map fun d => compactChars.getD d 'A')

/-- Cell.unique_name: the cell name, an underscore, and the compact id. -/
def CellT.unique_name (c : CellT) : String := c.name ++ "_" ++ compactId c.id

/-- The duplicate-name set computed by Layout.save: names occurring
more than once among the dependency cells. -/
def duplicate_names (cells : List CellT) : List String :=
  let cell_names := cells.map CellT.name
  (cell_names.filter fun x => 1 < cell_names.count x).dedup

/-- The structure name Cell.to_gds writes: the unique name iff the
cell's name is flagged as a duplicate. -/
def CellT.gds_name (duplicates : List String) (c : CellT) : String :=
  if c.name ∈ duplicates then c.unique_name else c.name

/-- The target name CellReference.to_gds and CellArray.to_gds write in
their SNAME record: the same selection applied to the target cell. -/
def RefT.sname (duplicates : List String) : RefT → String
  | .mk t _ _ _ _ => if t.name ∈ duplicates then t.unique_name else t.name

/-- The name-relevant records a cell contributes to the stream in
Cell.to_gds: its structure name and the SNAME of each of its
references, in order. -/
def CellT.to_gds_names (duplicates : List String) (c : CellT) : String × List String :=
  (CellT.gds_name duplicates c, c.refs.map (RefT.sname duplicates))

/-- The structure and reference names Layout.save writes: the
duplicates set is computed once from the dependency closure and passed
to every cell's to_gds. -/
def LayoutT.save_names (L : LayoutT) : List (String × List String) :=
  let cells := LayoutT.get_dependencies L
  let duplicates := duplicate_names cells
  cells.map (CellT.to_gds_names duplicates)

/-! ## ReferenceBase.scale (core.py 1766-1781) -/

/-- The placement attributes of a ReferenceBase the scale method can
touch.  The source assigns a misspelled attribute magnificiation when
the product reaches 1.0; it is a fresh attribute distinct from
magnification, modelled as a separate field. -/
structure ReferenceState where
  origin : Point
  rotation : Option ℚ
  magnification : Option ℚ
  magnificiation : Option ℚ
  x_reflection : Bool

/-- ReferenceBase.scale: a missing magnification is first initialised
to 0, then multiplied by k; when the product equals 1.0 the misspelled
attribute is set to None while magnification keeps the product.  The
method mutates in place and returns self. -/
def ReferenceBase.scale (r : ReferenceState) (k : ℚ) : ReferenceState :=
  let m0 : ℚ := match r.magnification with | none => 0 | some m => m
  let m1 : ℚ := m0 * k
  if m1 = 1 then { r with magnification := some m1, magnificiation := none }
  else { r with magnification := some m1 }

/-! ## Cell.add (core.py 1522-1553) -/

/-- The argument given to Cell.add: a Cell, a drawing element, a
reference, a list of arguments, or a value of a type add rejects. -/
inductive AddArg : Type where
  | cell (c : CellT)
  | element (pts : List Point)
  | reference (r : RefT)
  | list (l : List AddArg)
  | unsupported (tag : String)

/-- The mutable element state of a Cell: its objects and references. -/
structure CellState where
  objects : List (List Point)
  references : List RefT

/-- Whether the argument takes the tuple/list branch of Cell.add. -/
def AddArg.isList : AddArg → Bool
  | .list _ => true
  | _ => false

mutual
/-- Cell.add.  The flags args and kwargs model extra positional and
keyword arguments that the CellReference constructor rejects; an
exception propagates out of the method, so the returned state is the
cell's element state at the moment the exception is raised. -/
def Cell.add (st : CellState) (arg : AddArg) (args kwargs : Bool) :
    CellState × Option String :=
  match arg with
  | .cell c =>
    if args ∨ kwargs then (st, some "TypeError: CellReference constructor arguments")
    else ({ st with references := st.references ++ [RefT.mk c (0, 0) none none false] }, none)
  | .element pts =>
    if args ∨ kwargs then (st, some "TypeError: Cannot have extra arguments when adding elements")
    else ({ st with objects := st.objects ++ [pts] }, none)
  | .reference r =>
    if args ∨ kwargs then (st, some "TypeError: Cannot have extra arguments when adding elements")
    else ({ st with references := st.references ++ [r] }, none)
  | .list l => Cell.addList st l kwargs
  | .unsupported tag => (st, some ("TypeError: Cannot add type " ++ tag ++ " to cell."))

/-- The tuple/list branch: for e in element: self.add(e, **kwargs) —
positional args are not forwarded, keyword args are; the first
exception aborts the loop with earlier elements already added. -/
def Cell.addList (st : CellState) (l : List AddArg) (kwargs : Bool) :
    CellState × Option String :=
  match l with
  | [] => (st, none)
  | a :: rest =>
    match Cell.add st a false kwargs with
    | (st2, some err) => (st2, some err)
    | (st2, none) => Cell.addList st2 rest kwargs
end

/-! ## Bounding boxes (core.py 312-328, 1644-1659, 1881-1919) -/

def minList (x : ℚ) (l : List ℚ) : ℚ := l.foldl min x

def maxList (x : ℚ) (l : List ℚ) : ℚ := l.foldl max x

/-- A bounding box: ((x min, y min), (x max, y max)). -/
abbrev Box : Type := (ℚ × ℚ) × (ℚ × ℚ)

/-- ElementBase.bounding_box: componentwise min and max over the point
array.  numpy min/max of a zero-size array raises.  The bounding box
cache is invisible to a pure model. -/
def ElementBase.bounding_box : List Point → Except String Box
  | [] => .error "ValueError: zero-size array reduction"
  | p :: rest =>
    .ok ((minList p.1 (rest.map Prod.fst), minList p.2 (rest.map Prod.snd)),
         (maxList p.1 (rest.map Prod.fst), maxList p.2 (rest.map Prod.snd)))

/-- The componentwise union of two boxes: min of mins, max of maxes. -/
def boxUnion (a b : Box) : Box :=
  ((min a.1.1 b.1.1, min a.1.2 b.1.2), (max a.2.1 b.2.1, max a.2.2 b.2.2))

/-- Truthiness of the rotation attribute in `if self.rotation:` — None
and 0 are both falsy. -/
def rotationTruthy : Option ℚ → Bool
  | none => false
  | some r => r ≠ 0

/-- The corner-rotation step of the reference bounding box: rotate the
four corners of the box with utils.rotate about (0, 0) and re-derive
the min/max corners. -/
def rotCorners (T : Trig) (bb : Box) (angle : ℚ) : Box :=
  match ElementBase.rotate T
      [(bb.1.1, bb.1.2), (bb.1.1, bb.2.2), (bb.2.1, bb.2.2), (bb.2.1, bb.1.2)] angle (0, 0) with
  | [] => bb
  | q :: qs =>
    ((minList q.1 (qs.map Prod.fst), minList q.2 (qs.map Prod.snd)),
     (maxList q.1 (qs.map Prod.fst), maxList q.2 (qs.map Prod.snd)))

/-- The member boxes contributed by the cell's drawing objects, each an
ElementBase.bounding_box, never None. -/
def objBoxes : List (List Point) → Except String (List (Option Box))
  | [] => .ok []
  | o :: rest =>
    match ElementBase.bounding_box o with
    | .error e => .error e
    | .ok b =>
      match objBoxes rest with
      | .error e => .error e
      | .ok bs => .ok (some b :: bs)

mutual
/-- Cell.bounding_box: None for a cell with no elements; otherwise the
member boxes with the None entries discarded, and the componentwise
min/max union of the rest.  An all-None member list crashes the numpy
indexing in the source, modelled as an error. -/
def CellT.bounding_box (T : Trig) : CellT → Except String (Option Box)
  | .mk _ _ objects refs =>
    if objects.length + refs.length = 0 then .ok none
    else
      match objBoxes objects with
      | .error e => .error e
      | .ok obs =>
        match refBoxes T refs with
        | .error e => .error e
        | .ok rbs =>
          match (obs ++ rbs).filterMap id with
          | [] => .error "IndexError: too many indices for array"
          | b :: bs => .ok (some (bs.foldl boxUnion b))

def refBoxes (T : Trig) : List RefT → Except String (List (Option Box))
  | [] => .ok []
  | r :: rest =>
    match RefT.bounding_box T r with
    | .error e => .error e
    | .ok b =>
      match refBoxes T rest with
      | .error e => .error e
      | .ok bs => .ok (b :: bs)

/-- CellReference.bounding_box: None when the target has no elements;
otherwise the target box scaled by the magnification (default 1),
corner-rotated only when the rotation is set and nonzero, then
translated by the origin. -/
def RefT.bounding_box (T : Trig) : RefT → Except String (Option Box)
  | .mk t origin rotation magnification _ =>
    if CellT.len t = 0 then .ok none
    else
      match CellT.bounding_box T t with
      | .error e => .error e
      | .ok none => .error "TypeError: unsupported operand type"
      | .ok (some bb) =>
        let mag : ℚ := magnification.getD 1
        let bb1 : Box := ((bb.1.1 * mag, bb.1.2 * mag), (bb.2.1 * mag, bb.2.2 * mag))
        let bb2 : Box := if rotationTruthy rotation then rotCorners T bb1 (rotation.getD 0) else bb1
        .ok (some ((bb2.1.1 + origin.1, bb2.1.2 + origin.2),
                   (bb2.2.1 + origin.1, bb2.2.2 + origin.2)))
end

/-! ## Flattening (core.py 1696-1721, 1950-1961, 2173-2193) -/

mutual
/-- Cell.flatten: copies of the cell's own objects followed by each
reference's flattened contents. -/
def CellT.flatten (T : Trig) : CellT → List (List Point)
  | .mk _ _ objects refs => objects ++ refsFlatten T refs

def refsFlatten (T : Trig) : List RefT → List (List Point)
  | [] => []
  | r :: rest => RefT.flatten T r ++ refsFlatten T rest

/-- CellReference.flatten: the target's flattened elements, each scaled
by the magnification (default 1), rotated by the rotation (default 0)
and translated by the origin, in place. -/
def RefT.flatten (T : Trig) : RefT → List (List Point)
  | .mk t origin rotation magnification _ =>
    let mag : ℚ := magnification.getD 1
    let rot : ℚ := rotation.getD 0
    (CellT.flatten T t).map fun e =>
      ElementBase.translate (ElementBase.rotate T (ElementBase.scale e (mag, mag) (0, 0)) rot (0, 0)) origin
end

/-- A CellArray (core.py 1985-2000): column and row counts, a 2x2
spacing lattice (first row the column step, second row the row step),
and the shared placement attributes. -/
structure CellArrayT where
  ref_cell : CellT
  cols : ℕ
  rows : ℕ
  spacing : Point × Point
  origin : Point
  rotation : Option ℚ
  magnification : Option ℚ
  x_reflection : Bool

/-- The spacing normalisation of CellArray.__init__: a flat pair (n, m)
becomes the diagonal lattice ((n, 0), (0, m)). -/
def CellArray.spacingOfPair (n m : ℚ) : Point × Point := ((n, 0), (0, m))

/-- CellArray.flatten: for each column i and row j, copies of the
target's flattened elements scaled by the magnification and translated
by the lattice point (i, j) · spacing; then every element of the
accumulated list is rotated by the rotation and translated by the
origin.  The x_reflection attribute is not consulted. -/
def CellArray.flatten (T : Trig) (A : CellArrayT) : List (List Point) :=
  let mag : ℚ := A.magnification.getD 1
  let rot : ℚ := A.rotation.getD 0
  let sub_el := CellT.flatten T A.ref_cell
  let elements := (List.range A.cols).flatMap fun i =>
    (List.range A.rows).flatMap fun j =>
      sub_el.map fun e =>
        ElementBase.translate (ElementBase.scale e (mag, mag) (0, 0))
          ((i : ℚ) * A.spacing.1.1 + (j : ℚ) * A.spacing.2.1,
           (i : ℚ) * A.spacing.1.2 + (j : ℚ) * A.spacing.2.2)
  elements.map fun e => ElementBase.translate (ElementBase.rotate T e rot (0, 0)) A.origin

/-! ## Claims C6, C8, C9, C10 -/

/-- C6: a freshly constructed Boundary has first point equal to last
point; an unclosed caller sequence gets a copy of its first point
appended, an already closed sequence is stored unchanged. -/
theorem C6_boundary_first_eq_last (pts : List Point) (h : pts ≠ []) :
    (boundaryClose pts).head? = (boundaryClose pts).getLast? ∧
    (pts.head? = pts.getLast? → boundaryClose pts = pts) ∧
    (pts.head? ≠ pts.getLast? → boundaryClose pts = pts ++ pts.head?.toList) := by
  rcases pts with _ | ⟨p, rest⟩
  · exact absurd rfl h
  · by_cases hc : (p :: rest).head? = (p :: rest).getLast?
    · rw [boundaryClose, if_neg (by simpa using hc)]
      exact ⟨hc, fun _ => rfl, fun hne => absurd hc hne⟩
    · rw [boundaryClose, if_pos (by simpa using hc)]
      refine ⟨?_, fun he => absurd he hc, fun _ => rfl⟩
      have h1 : ((p :: rest) ++ [p]).head? = some p := by rw [List.cons_append, List.head?_cons]
      have h2 : ((p :: rest) ++ [p]).getLast? = some p := List.getLast?_concat _
      simp only [List.head?_cons, Option.toList_some]
      rw [h1, h2]

/-- Witness for C6 on an unclosed square and on a closed pair. -/
theorem C6_boundary_first_eq_last_witness :
    ([((0 : ℚ), (0 : ℚ)), (2, 0), (2, 2), (0, 2)] ≠ ([] : List Point)) ∧
    (boundaryClose [((0 : ℚ), (0 : ℚ)), (2, 0), (2, 2), (0, 2)]).head? =
      (boundaryClose [((0 : ℚ), (0 : ℚ)), (2, 0), (2, 2), (0, 2)]).getLast? :=
  ⟨by simp, (C6_boundary_first_eq_last [((0 : ℚ), (0 : ℚ)), (2, 0), (2, 2), (0, 2)] (by simp)).1⟩

/-- C9: scaling a reference whose magnification is None sets the
magnification to 0 regardless of the factor, leaving the other
placement fields of the same object unchanged. -/
theorem C9_scale_none_magnification_zero (r : ReferenceState) (k : ℚ)
    (h : r.magnification = none) :
    (ReferenceBase.scale r k).magnification = some 0 ∧
    (ReferenceBase.scale r k).origin = r.origin ∧
    (ReferenceBase.scale r k).rotation = r.rotation ∧
    (ReferenceBase.scale r k).x_reflection = r.x_reflection := by
  simp [ReferenceBase.scale, h]

/-- Witness for C9 at a concrete reference and factor 5. -/
theorem C9_scale_none_magnification_zero_witness :
    ((⟨(0, 0), none, none, none, false⟩ : ReferenceState).magnification = none) ∧
    ((ReferenceBase.scale ⟨(0, 0), none, none, none, false⟩ 5).magnification = some 0 ∧
      (ReferenceBase.scale ⟨(0, 0), none, none, none, false⟩ 5).origin = (0, 0) ∧
      (ReferenceBase.scale ⟨(0, 0), none, none, none, false⟩ 5).rotation = none ∧
      (ReferenceBase.scale ⟨(0, 0), none, none, none, false⟩ 5).x_reflection = false) :=
  ⟨rfl, C9_scale_none_magnification_zero ⟨(0, 0), none, none, none, false⟩ 5 rfl⟩

/-- C8 counterexample: adding the list [boundary, 42] to an empty cell
raises on the int, but the boundary stays appended: the cell state
after the failed call differs from the state before it. -/
theorem C8_partial_mutation_counterexample :
    ((Cell.add ⟨[], []⟩ (.list [.element [((0 : ℚ), (0 : ℚ))], .unsupported "int"])
        false false).2.isSome = true) ∧
    (Cell.add ⟨[], []⟩ (.list [.element [((0 : ℚ), (0 : ℚ))], .unsupported "int"])
        false false).1.objects ≠ ([] : List (List Point)) := by
  constructor
  · simp [Cell.add, Cell.addList]
  · simp [Cell.add, Cell.addList]

/-- C8 amended: a failing Cell.add with a non-list argument leaves the
cell state untouched, but a failing add of a list keeps the elements
that preceded the offending entry — shown on the concrete list
[boundary, 42] added to an empty cell. -/
theorem C8_add_error_state (st : CellState) (a : AddArg) (args kwargs : Bool)
    (hnl : a.isList = false) :
    ((Cell.add st a args kwargs).2.isSome = true → (Cell.add st a args kwargs).1 = st) ∧
    ((Cell.add ⟨[], []⟩ (.list [.element [((0 : ℚ), (0 : ℚ))], .unsupported "int"])
        false false).1.objects = [[((0 : ℚ), (0 : ℚ))]]) := by
  constructor
  · cases a with
    | cell c =>
      rw [Cell.add]
      split
      · intro _; rfl
      · intro hco; simp at hco
    | element pts =>
      rw [Cell.add]
      split
      · intro _; rfl
      · intro hco; simp at hco
    | reference r =>
      rw [Cell.add]
      split
      · intro _; rfl
      · intro hco; simp at hco
    | list l => simp [AddArg.isList] at hnl
    | unsupported tag => intro _; rfl
  · simp [Cell.add, Cell.addList]

/-- Witness for C8 amended at a concrete non-list argument. -/
theorem C8_add_error_state_witness :
    ((AddArg.unsupported "int").isList = false) ∧
    (((Cell.add ⟨[], []⟩ (.unsupported "int") false false).2.isSome = true →
        (Cell.add ⟨[], []⟩ (.unsupported "int") false false).1 = ⟨[], []⟩) ∧
      ((Cell.add ⟨[], []⟩ (.list [.element [((0 : ℚ), (0 : ℚ))], .unsupported "int"])
          false false).1.objects = [[((0 : ℚ), (0 : ℚ))]])) :=
  ⟨rfl, C8_add_error_state ⟨[], []⟩ (.unsupported "int") false false rfl⟩

/-! ## Claim C10: Layout.add -/

lemma lookupName_dictSetItem (k : String) (c : CellT) :
    ∀ L : LayoutT, LayoutT.lookupName (dictSetItem L k c) k = some c := by
  intro L
  induction L with
  | nil => simp [dictSetItem, LayoutT.lookupName]
  | cons p rest ih =>
    rw [dictSetItem]
    by_cases hcont : ((p :: rest).map Prod.fst).contains k
    · rw [if_pos hcont]
      by_cases hp : p.1 = k
      · simp [LayoutT.lookupName, hp]
      · have hcont2 : (rest.map Prod.fst).contains k := by
          simp only [List.map_cons, List.contains_cons] at hcont
          rcases Bool.or_eq_true_iff.mp hcont with h | h
          · exact absurd (beq_iff_eq.mp h).symm hp
          · exact h
        have htail := ih
        rw [dictSetItem, if_pos hcont2] at htail
        simpa [LayoutT.lookupName, List.find?, hp] using htail
    · rw [if_neg hcont]
      have hnf : ∀ x ∈ p :: rest, ¬(decide (x.1 = k) = true) := by
        intro q hq hqk
        rw [decide_eq_true_eq] at hqk
        apply hcont
        simp only [List.contains_eq_any_beq, List.any_eq_true]
        exact ⟨q.1, List.mem_map_of_mem Prod.fst hq, beq_iff_eq.mpr hqk.symm⟩
      rw [LayoutT.lookupName, List.find?_append, List.find?_eq_none.mpr hnf]
      simp [List.find?]

/-- C10: Layout.add never raises on a duplicate name: its warning flag
is set exactly when the name is already in the dependency closure, and
in every case the cell ends up stored under its name, replacing any
previous entry. -/
theorem C10_layout_add_warn_only (L : LayoutT) (c : CellT) :
    ((LayoutT.add L c).2 = true ↔
      c.name ∈ (LayoutT.get_dependencies L).map CellT.name) ∧
    LayoutT.lookupName (LayoutT.add L c).1 c.name = some c := by
  constructor
  · rw [LayoutT.add]
    simp [List.contains_eq_any_beq, List.any_eq_true]
  · exact lookupName_dictSetItem c.name c L

/-- Witness for C10 is not required (no hypotheses), but the theorem is
exercised at a concrete layout whose only cell already bears the name
being added. -/
theorem C10_layout_add_warn_only_witness :
    (((LayoutT.add [("A", CellT.mk 0 "A" [] [])] (CellT.mk 1 "A" [] [])).2 = true ↔
      "A" ∈ (LayoutT.get_dependencies [("A", CellT.mk 0 "A" [] [])]).map CellT.name) ∧
    LayoutT.lookupName (LayoutT.add [("A", CellT.mk 0 "A" [] [])] (CellT.mk 1 "A" [] [])).1 "A" =
      some (CellT.mk 1 "A" [] [])) :=
  C10_layout_add_warn_only [("A", CellT.mk 0 "A" [] [])] (CellT.mk 1 "A" [] [])

/-! ## Claim C4: each reachable cell listed exactly once -/

/-- Transitive reachability of a cell from a layout through references:
the layout's own cells, and the target of any reference owned by a
reachable cell. -/
inductive ReachableFrom (L : LayoutT) : CellT → Prop where
  | top {c : CellT} : c ∈ LayoutT.values L → ReachableFrom L c
  | step {c : CellT} {r : RefT} : ReachableFrom L c → r ∈ c.refs → ReachableFrom L r.target

lemma refsDeps_mem (d : CellT) (rs : List RefT) :
    d ∈ refsDeps rs ↔ ∃ r ∈ rs, d ∈ RefT.get_dependencies r := by
  induction rs with
  | nil => simp [refsDeps]
  | cons r rest ih => rw [refsDeps]; simp [ih]

lemma target_mem_get_dependencies (t : CellT) (r : RefT) (hr : r ∈ t.refs) :
    r.target ∈ CellT.get_dependencies t := by
  rcases t with ⟨i, n, o, rs⟩
  rw [CellT.get_dependencies, refsDeps_mem]
  refine ⟨r, hr, ?_⟩
  rcases r with ⟨t0, o0, rot0, m0, x0⟩
  rw [RefT.get_dependencies]
  exact List.mem_cons_self _ _

lemma get_dependencies_trans : ∀ (c d : CellT), d ∈ CellT.get_dependencies c →
    ∀ r ∈ d.refs, r.target ∈ CellT.get_dependencies c
  | .mk i n o rs, d, hd, r, hr => by
    rw [CellT.get_dependencies, refsDeps_mem] at hd
    obtain ⟨r0, hr0, hdr0⟩ := hd
    rcases r0 with ⟨t0, o0, rot0, m0, x0⟩
    rw [RefT.get_dependencies] at hdr0
    rw [CellT.get_dependencies, refsDeps_mem]
    rcases List.mem_cons.mp hdr0 with rfl | hdeep
    · exact ⟨⟨d, o0, rot0, m0, x0⟩, hr0,
        by rw [RefT.get_dependencies]
           exact List.mem_cons_of_mem _ (target_mem_get_dependencies d r hr)⟩
    · have hrec := get_dependencies_trans t0 d hdeep r hr
      exact ⟨⟨t0, o0, rot0, m0, x0⟩, hr0,
        by rw [RefT.get_dependencies]; exact List.mem_cons_of_mem _ hrec⟩
termination_by c => sizeOf c
decreasing_by
  have h1 := List.sizeOf_lt_of_mem hr0
  simp only [RefT.mk.sizeOf_spec] at h1
  simp only [CellT.mk.sizeOf_spec]
  omega

/-- The list Layout.get_dependencies deduplicates: the layout's values
followed by every value's dependency list. -/
def rawDeps (L : LayoutT) : List CellT :=
  LayoutT.values L ++ (LayoutT.values L).flatMap CellT.get_dependencies

lemma reachable_mem_rawDeps (L : LayoutT) (c : CellT) (h : ReachableFrom L c) :
    c ∈ rawDeps L := by
  induction h with
  | top hm => exact List.mem_append_left _ hm
  | @step d r hd hr ih =>
    rcases List.mem_append.mp ih with hv | hf
    · exact List.mem_append_right _
        (List.mem_flatMap.mpr ⟨d, hv, target_mem_get_dependencies d r hr⟩)
    · obtain ⟨v, hvval, hvdep⟩ := List.mem_flatMap.mp hf
      exact List.mem_append_right _
        (List.mem_flatMap.mpr ⟨v, hvval, get_dependencies_trans v d hvdep r hr⟩)

lemma countP_dedupeById : ∀ (l : List CellT) (i : ℕ),
    (dedupeById l).countP (fun c => c.id = i) = if l.any (fun c => c.id = i) then 1 else 0
  | [], i => by simp [dedupeById]
  | c :: rest, i => by
    rw [dedupeById]
    have ih := countP_dedupeById (rest.filter fun x => x.id ≠ c.id) i
    by_cases hc : c.id = i
    · have hnone : ((rest.filter fun x => x.id ≠ c.id).any fun x => x.id = i) = false := by
        rw [List.any_eq_false]
        intro x hx
        have := (List.mem_filter.mp hx).2
        simp only [decide_eq_true_eq, ne_eq, decide_not, Bool.not_eq_true', decide_eq_false_iff_not] at this ⊢
        omega
      rw [List.countP_cons]
      rw [ih, hnone]
      simp [hc]
    · have hsame : ((rest.filter fun x => x.id ≠ c.id).any fun x => x.id = i) =
          (rest.any fun x => x.id = i) := by
        rcases hany : rest.any fun x => x.id = i with _ | _
        · rw [List.any_eq_false] at hany ⊢
          intro x hx
          exact hany x (List.mem_filter.mp hx).1
        · rw [List.any_eq_true] at hany ⊢
          obtain ⟨x, hx, hxi⟩ := hany
          simp only [decide_eq_true_eq] at hxi
          refine ⟨x, List.mem_filter.mpr ⟨hx, ?_⟩, by simp [hxi]⟩
          simp only [ne_eq, decide_not, Bool.not_eq_true', decide_eq_false_iff_not]
          omega
      rw [List.countP_cons, ih, hsame]
      simp [hc, List.any_cons]
termination_by l => l.length
decreasing_by
  simp
  exact Nat.lt_succ_of_le (List.length_filter_le _ _)

/-- C4: every cell transitively reachable from a layout appears exactly
once in Layout.get_dependencies, id-counted; in particular Y, referenced
twice by X, is listed once. -/
theorem C4_get_dependencies_exactly_once (L : LayoutT) (c : CellT)
    (h : ReachableFrom L c) :
    (LayoutT.get_dependencies L).countP (fun x => x.id = c.id) = 1 ∧
    (LayoutT.get_dependencies
        [("X", CellT.mk 0 "X" []
          [RefT.mk (CellT.mk 1 "Y" [] []) (0, 0) none none false,
           RefT.mk (CellT.mk 1 "Y" [] []) (1, 1) none none false])]).countP
      (fun x => x.id = 1) = 1 := by
  constructor
  · rw [LayoutT.get_dependencies, countP_dedupeById]
    have hmem : c ∈ rawDeps L := reachable_mem_rawDeps L c h
    rw [if_pos]
    rw [List.any_eq_true]
    exact ⟨c, hmem, by simp⟩
  · rw [LayoutT.get_dependencies]
    simp [LayoutT.values, CellT.get_dependencies, refsDeps, RefT.get_dependencies, dedupeById,
      List.countP_cons, CellT.id]

/-- Witness for C4 at the two-references layout itself. -/
theorem C4_get_dependencies_exactly_once_witness :
    (LayoutT.get_dependencies
        [("X", CellT.mk 0 "X" []
          [RefT.mk (CellT.mk 1 "Y" [] []) (0, 0) none none false,
           RefT.mk (CellT.mk 1 "Y" [] []) (1, 1) none none false])]).countP
      (fun x => x.id = (CellT.mk 1 "Y" [] []).id) = 1 :=
  (C4_get_dependencies_exactly_once
    [("X", CellT.mk 0 "X" []
      [RefT.mk (CellT.mk 1 "Y" [] []) (0, 0) none none false,
       RefT.mk (CellT.mk 1 "Y" [] []) (1, 1) none none false])]
    (CellT.mk 1 "Y" [] [])
    (ReachableFrom.step
      (c := CellT.mk 0 "X" []
        [RefT.mk (CellT.mk 1 "Y" [] []) (0, 0) none none false,
         RefT.mk (CellT.mk 1 "Y" [] []) (1, 1) none none false])
      (r := RefT.mk (CellT.mk 1 "Y" [] []) (0, 0) none none false)
      (ReachableFrom.top (by simp [LayoutT.values]))
      (by simp [CellT.refs]))).1

/-! ## Claim C5: duplicate-name resolution is consistent within a save -/

lemma mem_duplicate_names (cells : List CellT) (c c2 : CellT)
    (hc : c ∈ cells) (hc2 : c2 ∈ cells) (hne : c ≠ c2) (hname : c.name = c2.name) :
    c.name ∈ duplicate_names cells := by
  rw [duplicate_names, List.mem_dedup, List.mem_filter]
  refine ⟨List.mem_map_of_mem CellT.name hc, ?_⟩
  simp only [decide_eq_true_eq]
  obtain ⟨s, t, rfl⟩ := List.append_of_mem hc
  have hc2' : c2 ∈ s ∨ c2 ∈ t := by
    rcases List.mem_append.mp hc2 with h | h
    · exact Or.inl h
    · rcases List.mem_cons.mp h with h | h
      · exact absurd h.symm hne
      · exact Or.inr h
  rw [List.map_append, List.map_cons, List.count_append, List.count_cons_self]
  have hpos : 0 < (s.map CellT.name).count c.name ∨ 0 < (t.map CellT.name).count c.name := by
    rcases hc2' with h | h
    · exact Or.inl (by rw [hname]; exact List.count_pos_iff.mpr (List.mem_map_of_mem CellT.name h))
    · exact Or.inr (by rw [hname]; exact List.count_pos_iff.mpr (List.mem_map_of_mem CellT.name h))
  omega

/-- C5: within one save, every cell of the dependency closure that
shares its name with a distinct cell of the closure is written under
its unique name, every reference record writes for its target exactly
the name the target's own structure record uses, and the save passes
the one duplicates set to every cell. -/
theorem C5_save_unique_name_consistency (L : LayoutT) :
    (∀ c ∈ LayoutT.get_dependencies L, ∀ c2 ∈ LayoutT.get_dependencies L,
      c ≠ c2 → c.name = c2.name →
        CellT.gds_name (duplicate_names (LayoutT.get_dependencies L)) c = c.unique_name) ∧
    (∀ c ∈ LayoutT.get_dependencies L, ∀ r ∈ c.refs,
      RefT.sname (duplicate_names (LayoutT.get_dependencies L)) r =
        CellT.gds_name (duplicate_names (LayoutT.get_dependencies L)) r.target) ∧
    LayoutT.save_names L = (LayoutT.get_dependencies L).map
      (CellT.to_gds_names (duplicate_names (LayoutT.get_dependencies L))) := by
  refine ⟨?_, ?_, rfl⟩
  · intro c hc c2 hc2 hne hname
    rw [CellT.gds_name, if_pos (mem_duplicate_names _ c c2 hc hc2 hne hname)]
  · intro c _ r _
    rcases r with ⟨t, o, rot, m, x⟩
    rw [RefT.sname, CellT.gds_name]
    rfl

/-- Witness for C5: a layout holding a top-level cell named A and a
cell X referencing a second, distinct cell also named A. -/
theorem C5_save_unique_name_consistency_witness :
    CellT.gds_name
      (duplicate_names (LayoutT.get_dependencies
        [("A", CellT.mk 5 "A" [] []),
         ("X", CellT.mk 2 "X" [] [RefT.mk (CellT.mk 7 "A" [] []) (0, 0) none none false])]))
      (CellT.mk 5 "A" [] []) = CellT.unique_name (CellT.mk 5 "A" [] []) ∧
    RefT.sname
      (duplicate_names (LayoutT.get_dependencies
        [("A", CellT.mk 5 "A" [] []),
         ("X", CellT.mk 2 "X" [] [RefT.mk (CellT.mk 7 "A" [] []) (0, 0) none none false])]))
      (RefT.mk (CellT.mk 7 "A" [] []) (0, 0) none none false) =
    CellT.gds_name
      (duplicate_names (LayoutT.get_dependencies
        [("A", CellT.mk 5 "A" [] []),
         ("X", CellT.mk 2 "X" [] [RefT.mk (CellT.mk 7 "A" [] []) (0, 0) none none false])]))
      (RefT.mk (CellT.mk 7 "A" [] []) (0, 0) none none false).target := by
  constructor
  · exact (C5_save_unique_name_consistency _).1 (CellT.mk 5 "A" [] [])
      (by simp [LayoutT.get_dependencies, LayoutT.values, CellT.get_dependencies, refsDeps,
        RefT.get_dependencies, dedupeById, CellT.id])
      (CellT.mk 7 "A" [] [])
      (by simp [LayoutT.get_dependencies, LayoutT.values, CellT.get_dependencies, refsDeps,
        RefT.get_dependencies, dedupeById, CellT.id])
      (by intro h; have := congrArg CellT.id h; simp [CellT.id] at this)
      rfl
  · exact (C5_save_unique_name_consistency _).2.1 (CellT.mk 2 "X" []
      [RefT.mk (CellT.mk 7 "A" [] []) (0, 0) none none false])
      (by simp [LayoutT.get_dependencies, LayoutT.values, CellT.get_dependencies, refsDeps,
        RefT.get_dependencies, dedupeById, CellT.id])
      (RefT.mk (CellT.mk 7 "A" [] []) (0, 0) none none false)
      (by simp [CellT.refs])

/-! ## Claim C7: cell bounding box -/

lemma foldl_boxUnion_spec (b : Box) (bs : List Box) :
    bs.foldl boxUnion b =
      ((minList b.1.1 (bs.map fun x => x.1.1), minList b.1.2 (bs.map fun x => x.1.2)),
       (maxList b.2.1 (bs.map fun x => x.2.1), maxList b.2.2 (bs.map fun x => x.2.2))) := by
  induction bs generalizing b with
  | nil => simp [minList, maxList]
  | cons x xs ih =>
    rw [List.foldl_cons, ih]
    simp [boxUnion, minList, maxList]

/-- C7: the bounding box of a cell with no elements is None; for a
non-empty cell it is the componentwise union (min of mins, max of
maxes) of the member boxes that exist; the single-square example
evaluates to ((0, 0), (2, 2)). -/
theorem C7_cell_bounding_box (T : Trig) (c : CellT) (obs rbs : List (Option Box))
    (b : Box) (bs : List Box)
    (hne : CellT.len c ≠ 0)
    (hobs : objBoxes c.objects = .ok obs)
    (hrbs : refBoxes T c.refs = .ok rbs)
    (hboxes : (obs ++ rbs).filterMap id = b :: bs) :
    (∀ c0 : CellT, CellT.len c0 = 0 → CellT.bounding_box T c0 = .ok none) ∧
    CellT.bounding_box T c =
      .ok (some ((minList b.1.1 (bs.map fun x => x.1.1), minList b.1.2 (bs.map fun x => x.1.2)),
                 (maxList b.2.1 (bs.map fun x => x.2.1), maxList b.2.2 (bs.map fun x => x.2.2)))) ∧
    CellT.bounding_box T
        (CellT.mk 0 "SQ" [boundaryClose [(0, 0), (2, 0), (2, 2), (0, 2)]] []) =
      .ok (some ((0, 0), (2, 2))) := by
  refine ⟨?_, ?_, ?_⟩
  · intro c0 h0
    rcases c0 with ⟨i, n, o, r⟩
    rw [CellT.len] at h0
    rw [CellT.bounding_box, if_pos h0]
  · rcases c with ⟨i, n, o, r⟩
    rw [CellT.objects] at hobs
    rw [CellT.refs] at hrbs
    rw [CellT.len] at hne
    rw [CellT.bounding_box, if_neg hne, hobs, hrbs]
    simp only
    rw [hboxes]
    simp only [foldl_boxUnion_spec]
  · rfl

/-- Witness for C7 on a one-square cell. -/
theorem C7_cell_bounding_box_witness :
    CellT.bounding_box trigZero
        (CellT.mk 0 "SQ" [[((0 : ℚ), (0 : ℚ)), (2, 0), (2, 2), (0, 2), (0, 0)]] []) =
      .ok (some ((minList 0 [2, 2, 0, 0], minList 0 [0, 2, 2, 0]),
                 (maxList 0 [2, 2, 0, 0], maxList 0 [0, 2, 2, 0]))) :=
  (C7_cell_bounding_box trigZero
    (CellT.mk 0 "SQ" [[((0 : ℚ), (0 : ℚ)), (2, 0), (2, 2), (0, 2), (0, 0)]] [])
    [some ((0, 0), (2, 2))] []
    ((0, 0), (2, 2)) []
    (by rw [CellT.len]; norm_num)
    rfl
    rfl
    (by simp)).2.1

/-! ## Claim C3: CellArray.flatten -/

lemma range_map_const_sum (n k : ℕ) : (((List.range n).map fun _ => k).sum) = n * k := by
  induction n with
  | zero => simp
  | succ m ih =>
    rw [List.range_succ, List.map_append, List.sum_append, ih]
    simp [Nat.succ_mul]

/-- The per-copy form of CellArray.flatten: each of the cols x rows
copies is the referenced cell's flattened elements scaled by the
magnification, translated by the lattice point, rotated by the array's
rotation and translated by the array's origin. -/
lemma cellArray_flatten_eq (T : Trig) (A : CellArrayT) :
    CellArray.flatten T A =
      (List.range A.cols).flatMap fun i => (List.range A.rows).flatMap fun j =>
        (CellT.flatten T A.ref_cell).map fun e =>
          ElementBase.translate
            (ElementBase.rotate T
              (ElementBase.translate
                (ElementBase.scale e (A.magnification.getD 1, A.magnification.getD 1) (0, 0))
                ((i : ℚ) * A.spacing.1.1 + (j : ℚ) * A.spacing.2.1,
                 (i : ℚ) * A.spacing.1.2 + (j : ℚ) * A.spacing.2.2))
              (A.rotation.getD 0) (0, 0))
            A.origin := by
  rw [CellArray.flatten]
  simp only [List.map_flatMap, List.map_map]
  rfl

/-- C3: a CellArray flattens to exactly cols x rows transformed copies
of the referenced cell's flattened elements, each copy scaled, lattice
translated, then rotated and origin translated; the 3 x 2 example over
a single point at the origin gives exactly the six lattice points. -/
theorem C3_cellarray_flatten (T : Trig) (A : CellArrayT) :
    (CellArray.flatten T A =
      (List.range A.cols).flatMap fun i => (List.range A.rows).flatMap fun j =>
        (CellT.flatten T A.ref_cell).map fun e =>
          ElementBase.translate
            (ElementBase.rotate T
              (ElementBase.translate
                (ElementBase.scale e (A.magnification.getD 1, A.magnification.getD 1) (0, 0))
                ((i : ℚ) * A.spacing.1.1 + (j : ℚ) * A.spacing.2.1,
                 (i : ℚ) * A.spacing.1.2 + (j : ℚ) * A.spacing.2.2))
              (A.rotation.getD 0) (0, 0))
            A.origin) ∧
    (CellArray.flatten T A).length = A.cols * A.rows * (CellT.flatten T A.ref_cell).length ∧
    List.Perm
      (CellArray.flatten T
        ⟨CellT.mk 0 "P" [[(0, 0)]] [], 3, 2, ((10, 0), (0, 5)), (0, 0), none, none, false⟩)
      [[((0 : ℚ), (0 : ℚ))], [(10, 0)], [(20, 0)], [(0, 5)], [(10, 5)], [(20, 5)]] := by
  refine ⟨cellArray_flatten_eq T A, ?_, ?_⟩
  · rw [cellArray_flatten_eq T A, List.length_flatMap]
    simp only [Function.comp_def, List.length_flatMap, List.length_map, range_map_const_sum]
    ring
  · have hflat : CellArray.flatten T
        ⟨CellT.mk 0 "P" [[(0, 0)]] [], 3, 2, ((10, 0), (0, 5)), (0, 0), none, none, false⟩ =
        [[((0 : ℚ), (0 : ℚ))], [(0, 5)], [(10, 0)], [(10, 5)], [(20, 0)], [(20, 5)]] := by
      rw [CellArray.flatten]
      simp only [Option.getD_none]
      norm_num [CellT.flatten, refsFlatten, List.range_succ, ElementBase.scale,
        ElementBase.translate, ElementBase.rotate_zero]
    rw [hflat]
    decide

/-- Witness for C3 at the trivial trigonometry and the 3 x 2 example. -/
theorem C3_cellarray_flatten_witness :
    List.Perm
      (CellArray.flatten trigZero
        ⟨CellT.mk 0 "P" [[(0, 0)]] [], 3, 2, ((10, 0), (0, 5)), (0, 0), none, none, false⟩)
      [[((0 : ℚ), (0 : ℚ))], [(10, 0)], [(20, 0)], [(0, 5)], [(10, 5)], [(20, 5)]] :=
  (C3_cellarray_flatten trigZero
    ⟨CellT.mk 0 "P" [[(0, 0)]] [], 3, 2, ((10, 0), (0, 5)), (0, 0), none, none, false⟩).2.2

/-! ## Claim C2: Path point-count limits -/

lemma packHs_ok (l : List ℤ) (h : ∀ v ∈ l, 0 ≤ v ∧ v ≤ 65535) :
    ∃ out, packHs l = .ok out := by
  induction l with
  | nil => exact ⟨[], rfl⟩
  | cons n rest ih =>
    obtain ⟨out, hout⟩ := ih fun v hv => h v (List.mem_cons_of_mem _ hv)
    rw [packHs, packH, if_pos (h n (List.mem_cons_self _ _)), hout]
    exact ⟨_, rfl⟩

lemma xyLoop_ok : ∀ coords : List (ℤ × ℤ), ∃ out, xyLoop coords = .ok out
  | [] => ⟨[], by rw [xyLoop]⟩
  | c :: rest => by
    obtain ⟨out, hout⟩ := xyLoop_ok ((c :: rest).drop 8191)
    rw [xyLoop, packH, if_pos (by constructor <;> omega), packH, if_pos (by norm_num), hout]
    exact ⟨_, rfl⟩
termination_by l => l.length
decreasing_by
  simp
  omega

/-- C2: a Path with more than 8191 points is rejected with a hard error
both by the constructor and, on a path state holding that many points
anyway, by to_gds (the u16 size field of its single XY record
overflows); point counts above 199 but within 8191 yield at most a
warning (only when verbose) and the records are still produced, and a
Boundary of any point count is still written thanks to XY chunking. -/
theorem C2_path_8191_hard_error (p : PathT) (mult : ℚ)
    (hl : (p.layer : ℤ) ≤ 65535) (hd : (p.datatype : ℤ) ≤ 65535)
    (hpt : (p.pathtype : ℤ) ≤ 65535)
    (hw0 : 0 ≤ roundHalfEven (p.width * mult))
    (hw1 : roundHalfEven (p.width * mult) ≤ 4294967295) :
    (8191 < p.points.length →
      (∃ e, Path.to_gds p mult = .error e) ∧
      ∀ (w : ℚ) (l d pt : ℕ) (verbose : Bool), ∃ e2,
        Path.init p.points w l d pt verbose = .error e2) ∧
    (p.points.length ≤ 8191 → ∃ out, Path.to_gds p mult = .ok out) ∧
    (∀ (w : ℚ) (l d pt : ℕ), 199 < p.points.length → p.points.length ≤ 8191 →
      Path.init p.points w l d pt true =
        .ok (⟨p.points, w, l, d, pt⟩,
          ["[GDSPY] A Path with more than 199 points was created"]) ∧
      Path.init p.points w l d pt false = .ok (⟨p.points, w, l, d, pt⟩, [])) ∧
    (∀ b : BoundaryT, (b.layer : ℤ) ≤ 65535 → (b.datatype : ℤ) ≤ 65535 →
      ∃ out, Boundary.to_gds b mult = .ok out) := by
  have hhdr : ∃ hout, packHs [4, 0x0900, 6, 0x0D02, (p.layer : ℤ), 6, 0x0E02,
      (p.datatype : ℤ), 6, 0x2102, (p.pathtype : ℤ), 8] = .ok hout := by
    apply packHs_ok
    intro v hv
    simp only [List.mem_cons, List.not_mem_nil, or_false] at hv
    rcases hv with rfl | rfl | rfl | rfl | rfl | rfl | rfl | rfl | rfl | rfl | rfl | rfl <;>
      constructor <;> first | positivity | omega
  obtain ⟨hout, hhdr⟩ := hhdr
  refine ⟨?_, ?_, ?_, ?_⟩
  · intro hlen
    constructor
    · rw [Path.to_gds, hhdr]
      rw [packH, if_pos (by norm_num), packL, if_pos ⟨hw0, hw1⟩]
      rw [packH, if_neg (by omega)]
      exact ⟨_, rfl⟩
    · intro w l d pt verbose
      rw [Path.init, if_pos hlen]
      exact ⟨_, rfl⟩
  · intro hlen
    rw [Path.to_gds, hhdr]
    rw [packH, if_pos (by norm_num), packL, if_pos ⟨hw0, hw1⟩]
    rw [packH, if_pos (by omega), packH, if_pos (by norm_num)]
    rw [packHs, packH, if_pos (by norm_num), packHs, packH, if_pos (by norm_num), packHs]
    exact ⟨_, rfl⟩
  · intro w l d pt h199 hlen
    constructor
    · rw [Path.init, if_neg (by omega)]
      simp [h199]
    · rw [Path.init, if_neg (by omega)]
      simp
  · intro b hbl hbd
    have hbh : ∃ hout2, packHs [4, 0x0800, 6, 0x0D02, (b.layer : ℤ), 6, 0x0E02,
        (b.datatype : ℤ)] = .ok hout2 := by
      apply packHs_ok
      intro v hv
      simp only [List.mem_cons, List.not_mem_nil, or_false] at hv
      rcases hv with rfl | rfl | rfl | rfl | rfl | rfl | rfl | rfl <;>
        constructor <;> first | positivity | omega
    obtain ⟨hout2, hbh⟩ := hbh
    obtain ⟨xy, hxy⟩ := xyLoop_ok (gdsCoordinates b.points mult)
    rw [Boundary.to_gds, hbh, hxy]
    rw [packHs, packH, if_pos (by norm_num), packHs, packH, if_pos (by norm_num), packHs]
    exact ⟨_, rfl⟩

/-- Witness for C2 at a concrete 8192-point path with zero width. -/
theorem C2_path_8191_hard_error_witness :
    (((⟨List.replicate 8192 ((0 : ℚ), (0 : ℚ)), 0, 1, 0, 0⟩ : PathT).layer : ℤ) ≤ 65535 ∧
      0 ≤ roundHalfEven ((0 : ℚ) * 1) ∧ roundHalfEven ((0 : ℚ) * 1) ≤ 4294967295 ∧
      8191 < (List.replicate 8192 ((0 : ℚ), (0 : ℚ))).length) ∧
    (∃ e, Path.to_gds ⟨List.replicate 8192 ((0 : ℚ), (0 : ℚ)), 0, 1, 0, 0⟩ 1 = .error e) ∧
    (∀ (w : ℚ) (l d pt : ℕ) (verbose : Bool), ∃ e2,
      Path.init (List.replicate 8192 ((0 : ℚ), (0 : ℚ))) w l d pt verbose = .error e2) := by
  have hrw : roundHalfEven ((0 : ℚ) * 1) = 0 := by
    rw [roundHalfEven]
    norm_num
  have hmain := (C2_path_8191_hard_error ⟨List.replicate 8192 ((0 : ℚ), (0 : ℚ)), 0, 1, 0, 0⟩ 1
    (by norm_num) (by norm_num) (by norm_num) (by rw [hrw]) (by rw [hrw]; norm_num)).1
    (by rw [List.length_replicate]; norm_num)
  exact ⟨⟨by norm_num, by rw [hrw], by rw [hrw]; norm_num,
    by rw [List.length_replicate]; norm_num⟩, hmain.1, hmain.2⟩

end GdsCAD
